import Mathlib

/-!
Verification of the Hubify guessing-game core (Gotify component, preview
enhancement pipeline, and Spotimatch reason generation).

The definitions below are a shallow embedding of the TypeScript sources:

* string utilities and fuzzy matching from
  src/components/Gotify.tsx (normalizeString, calculateSimilarity);
* the session state machine from src/components/Gotify.tsx
  (startGame, generateRandomTrack, handleGuess, useHint, handleReveal,
  nextTurn, handleTimeUp, endGame, restartGame, setDifficulty,
  loadAdditionalTracksInBackground, enhanceInitialTracksQuickly,
  enhanceRemainingTracksInBackground);
* the preview enhancement service from src/services/api.ts
  (enhanceTracksWithPreviewUrls);
* the recommendation reason generator from src/components/Spotimatch.tsx
  (generateMatchReasons).

Conventions of the embedding:
* JavaScript numbers that only ever hold integers are modelled as `Int`
  (scores, popularity) or `Nat` (counters); fractional arithmetic
  (similarity scores, multipliers) is modelled as `Rat`.
* A nullable preview URL (`string | null`) is modelled as `Option String`
  with `none` for null.  The services that produce preview URLs never
  produce the empty string (the Deezer lookup only returns a truthy
  `track.preview` field), so the JavaScript truthiness tests
  `track.preview_url` and `!track.preview_url` coincide with `isSome` /
  `isNone` on this representation.
* Character classes follow the ASCII fragment actually exercised by the
  regexes in the source: `\w` is `[A-Za-z0-9_]`, `\s` is space, tab,
  newline and carriage return.
-/

/-- JavaScript whitespace test (`\s`), restricted to the ASCII characters. -/
def isSpaceChar (c : Char) : Bool :=
  c == ' ' || c == '\t' || c == '\n' || c == '\r'

/-- ASCII lower-casing, the fragment of `String.prototype.toLowerCase`
exercised by the source (track names and guesses are compared after this). -/
def jsToLower (c : Char) : Char :=
  match c with
  | 'A' => 'a' | 'B' => 'b' | 'C' => 'c' | 'D' => 'd' | 'E' => 'e'
  | 'F' => 'f' | 'G' => 'g' | 'H' => 'h' | 'I' => 'i' | 'J' => 'j'
  | 'K' => 'k' | 'L' => 'l' | 'M' => 'm' | 'N' => 'n' | 'O' => 'o'
  | 'P' => 'p' | 'Q' => 'q' | 'R' => 'r' | 'S' => 's' | 'T' => 't'
  | 'U' => 'u' | 'V' => 'v' | 'W' => 'w' | 'X' => 'x' | 'Y' => 'y'
  | 'Z' => 'z'
  | c => c

/-- JavaScript word-character test (`\w`): `[A-Za-z0-9_]`. -/
def isWordChar (c : Char) : Bool :=
  c.isAlpha || c.isDigit || c == '_'

/-- Collapse adjacent space characters into one (the effect of
`.replace(/\s+/g, " ")` after all whitespace has been mapped to `' '`). -/
def squeeze : List Char → List Char
  | [] => []
  | [c] => [c]
  | c₁ :: c₂ :: t =>
    if c₁ == ' ' && c₂ == ' ' then squeeze (c₂ :: t)
    else c₁ :: squeeze (c₂ :: t)

/-- Drop the trailing characters satisfying `p`. -/
def dropTrail (p : Char → Bool) (l : List Char) : List Char :=
  (l.reverse.dropWhile p).reverse

/-- `String.prototype.trim`: strip leading and trailing whitespace. -/
def jsTrim (s : String) : String :=
  ⟨dropTrail isSpaceChar (s.data.dropWhile isSpaceChar)⟩

/-- The normalisation pipeline of `normalizeString` in Gotify.tsx:
lowercase, remove `[^\w\s]`, map every whitespace character to `' '`,
collapse whitespace runs, and trim. -/
def normalizeChars (l : List Char) : List Char :=
  let l₁ := l.map jsToLower
  let l₂ := l₁.filter (fun c => isWordChar c || isSpaceChar c)
  let l₃ := l₂.map (fun c => if isSpaceChar c then ' ' else c)
  dropTrail (· == ' ') ((squeeze l₃).dropWhile (· == ' '))

/-- `normalizeString` from Gotify.tsx. -/
def normalizeString (s : String) : String :=
  ⟨normalizeChars s.data⟩

/-- Split a character list at every `' '`, keeping empty chunks, exactly as
JavaScript `String.prototype.split(" ")` does (so `""` splits to `[""]`). -/
def splitSp : List Char → List (List Char)
  | [] => [[]]
  | c :: t =>
    match splitSp t, c == ' ' with
    | r, true => [] :: r
    | [], false => [[c]]
    | w :: rs, false => (c :: w) :: rs

/-- JavaScript `s.split(" ")` on strings. -/
def jsSplitSpace (s : String) : List String :=
  (splitSp s.data).map (fun cs => ⟨cs⟩)

/-- Contiguous-substring test on character lists. -/
def hasInfix : List Char → List Char → Bool
  | [], sub => sub.isEmpty
  | c :: t, sub => sub.isPrefixOf (c :: t) || hasInfix t sub

/-- JavaScript `s.includes(sub)`: `sub` occurs as a contiguous substring. -/
def strIncludes (s sub : String) : Bool :=
  hasInfix s.data sub.data

/-- `calculateSimilarity` from Gotify.tsx: exact match 1, containment 0.8,
otherwise the fraction of guess tokens matching some target token. -/
def calculateSimilarity (str1 str2 : String) : ℚ :=
  let norm1 := normalizeString str1
  let norm2 := normalizeString str2
  if norm1 = norm2 then 1
  else if strIncludes norm1 norm2 || strIncludes norm2 norm1 then 4/5
  else
    let words1 := jsSplitSpace norm1
    let words2 := jsSplitSpace norm2
    let matchingWords := words1.filter
      (fun word => words2.any (fun w => strIncludes w word || strIncludes word w))
    if matchingWords.length > 0 then
      (matchingWords.length : ℚ) / (max words1.length words2.length : ℚ)
    else 0

/-! Trimming before normalising is redundant: `normalizeString` already
discards leading and trailing whitespace.  The lemmas below establish
`normalizeString (jsTrim s) = normalizeString s`, which lets theorems about
`handleGuess` (which trims the guess before scoring it) be stated directly
in terms of the submitted guess string. -/

theorem dropWhile_append_single (p : Char → Bool) (xs : List Char) (c : Char) :
    (xs ++ [c]).dropWhile p =
      if xs.dropWhile p = [] then (if p c then [] else [c])
      else xs.dropWhile p ++ [c] := by
  induction xs with
  | nil => cases hp : p c <;> simp [List.dropWhile, hp]
  | cons x t ih =>
    by_cases hx : p x
    · simpa [List.dropWhile, hx] using ih
    · simp [List.dropWhile, hx]

theorem dropTrail_cons (p : Char → Bool) (c : Char) (Z : List Char) :
    dropTrail p (c :: Z) =
      if p c = true ∧ dropTrail p Z = [] then [] else c :: dropTrail p Z := by
  unfold dropTrail
  rw [show (c :: Z).reverse = Z.reverse ++ [c] by simp,
    dropWhile_append_single]
  have hempty : Z.reverse.dropWhile p = [] ↔ (Z.reverse.dropWhile p).reverse = [] := by
    constructor
    · intro h; simp [h]
    · intro h; simpa using congrArg List.reverse h
  by_cases h1 : Z.reverse.dropWhile p = []
  · by_cases h2 : p c <;> simp [h1, h2, hempty.mp h1]
  · have h1' : (Z.reverse.dropWhile p).reverse ≠ [] := fun h => h1 (by simpa using congrArg List.reverse h)
    simp [h1, h1']

theorem dropWhile_dropTrail_comm (p : Char → Bool) (l : List Char) :
    (dropTrail p l).dropWhile p = dropTrail p (l.dropWhile p) := by
  induction l with
  | nil => simp [dropTrail]
  | cons c t ih =>
    rw [dropTrail_cons]
    by_cases hc : p c
    · by_cases ht : dropTrail p t = []
      · simp [hc, ht, List.dropWhile, ← ih]
      · simp only [hc, ht, and_false, true_and, if_neg, if_false]
        simp [List.dropWhile, hc, ih]
    · simp [hc, List.dropWhile, dropTrail_cons]

theorem dropWhile_squeeze_space (rest : List Char) :
    (squeeze (' ' :: rest)).dropWhile (· == ' ') =
      (squeeze rest).dropWhile (· == ' ') := by
  cases rest with
  | nil => simp [squeeze, List.dropWhile]
  | cons d ds =>
    by_cases hd : d = ' '
    · subst hd; simp [squeeze]
    · have hd' : (d == ' ') = false := by simpa using hd
      simp [squeeze, hd', List.dropWhile]

theorem dropWhile_squeeze_spaces (A Y : List Char) (hA : ∀ c ∈ A, c = ' ') :
    (squeeze (A ++ Y)).dropWhile (· == ' ') = (squeeze Y).dropWhile (· == ' ') := by
  induction A with
  | nil => rfl
  | cons a A ih =>
    have ha : a = ' ' := hA a (by simp)
    subst ha
    rw [List.cons_append, dropWhile_squeeze_space]
    exact ih (fun c hc => hA c (by simp [hc]))

theorem dropTrail_squeeze_space (Y : List Char) :
    dropTrail (· == ' ') (squeeze (Y ++ [' '])) =
      dropTrail (· == ' ') (squeeze Y) := by
  induction Y with
  | nil => simp [squeeze, dropTrail]
  | cons c t ih =>
    cases t with
    | nil =>
      by_cases hc : c = ' '
      · subst hc; simp [squeeze, dropTrail]
      · have hc' : (c == ' ') = false := by simpa using hc
        simp [squeeze, hc', dropTrail_cons, dropTrail]
    | cons c₂ t₂ =>
      by_cases hb : (c == ' ' && c₂ == ' ') = true
      · show dropTrail _ (squeeze (c :: c₂ :: (t₂ ++ [' ']))) = _
        rw [squeeze, if_pos hb, squeeze, if_pos hb]
        exact ih
      · show dropTrail _ (squeeze (c :: c₂ :: (t₂ ++ [' ']))) = _
        rw [List.cons_append] at ih
        rw [squeeze, if_neg hb, squeeze, if_neg hb,
          dropTrail_cons, dropTrail_cons, ih]

theorem dropTrail_squeeze_spaces (B : List Char) (hB : ∀ c ∈ B, c = ' ') (Y : List Char) :
    dropTrail (· == ' ') (squeeze (Y ++ B)) = dropTrail (· == ' ') (squeeze Y) := by
  induction B using List.reverseRecOn generalizing Y with
  | nil => simp
  | append_singleton B b ih =>
    have hb : b = ' ' := hB b (by simp)
    subst hb
    rw [show Y ++ (B ++ [' ']) = (Y ++ B) ++ [' '] by simp,
      dropTrail_squeeze_space]
    exact ih (fun c hc => hB c (by simp [hc])) Y

theorem trim_squeeze_affixes (A Y B : List Char)
    (hA : ∀ c ∈ A, c = ' ') (hB : ∀ c ∈ B, c = ' ') :
    dropTrail (· == ' ') ((squeeze (A ++ Y ++ B)).dropWhile (· == ' ')) =
      dropTrail (· == ' ') ((squeeze Y).dropWhile (· == ' ')) := by
  rw [show A ++ Y ++ B = A ++ (Y ++ B) by simp, dropWhile_squeeze_spaces _ _ hA,
    ← dropWhile_dropTrail_comm, dropTrail_squeeze_spaces B hB Y,
    dropWhile_dropTrail_comm]

theorem stage_of_space (c : Char) (hc : isSpaceChar c = true) :
    jsToLower c = c ∧ (isWordChar c || isSpaceChar c) = true ∧
      (if isSpaceChar c then ' ' else c) = ' ' := by
  have h4 : ((c = ' ' ∨ c = '\t') ∨ c = '\n') ∨ c = '\r' := by
    simpa [isSpaceChar] using hc
  rcases h4 with ((h | h) | h) | h <;> subst h <;> exact ⟨rfl, rfl, rfl⟩

/-- The three character-level normalisation stages, before whitespace
collapsing and trimming. -/
def stageChars (l : List Char) : List Char :=
  ((l.map jsToLower).filter (fun c => isWordChar c || isSpaceChar c)).map
    (fun c => if isSpaceChar c then ' ' else c)

theorem normalizeChars_eq_stage (l : List Char) :
    normalizeChars l =
      dropTrail (· == ' ') ((squeeze (stageChars l)).dropWhile (· == ' ')) := rfl

theorem stageChars_append (l₁ l₂ : List Char) :
    stageChars (l₁ ++ l₂) = stageChars l₁ ++ stageChars l₂ := by
  simp [stageChars]

theorem stageChars_all_space (A : List Char) (hA : ∀ c ∈ A, isSpaceChar c = true) :
    ∀ c ∈ stageChars A, c = ' ' := by
  intro c hc
  simp only [stageChars, List.mem_map, List.mem_filter] at hc
  obtain ⟨d, ⟨⟨e, he, rfl⟩, -⟩, rfl⟩ := hc
  have hsp := hA e he
  have h := stage_of_space e hsp
  rw [h.1]
  exact h.2.2

theorem normalizeChars_affixes (A M B : List Char)
    (hA : ∀ c ∈ A, isSpaceChar c = true) (hB : ∀ c ∈ B, isSpaceChar c = true) :
    normalizeChars (A ++ M ++ B) = normalizeChars M := by
  rw [normalizeChars_eq_stage, normalizeChars_eq_stage,
    stageChars_append, stageChars_append,
    trim_squeeze_affixes _ _ _ (stageChars_all_space A hA) (stageChars_all_space B hB)]

theorem data_decomposition (l : List Char) :
    l = l.takeWhile isSpaceChar ++
        dropTrail isSpaceChar (l.dropWhile isSpaceChar) ++
        ((l.dropWhile isSpaceChar).reverse.takeWhile isSpaceChar).reverse := by
  have h1 : l = l.takeWhile isSpaceChar ++ l.dropWhile isSpaceChar :=
    (List.takeWhile_append_dropWhile isSpaceChar l).symm
  have h2 : l.dropWhile isSpaceChar =
      dropTrail isSpaceChar (l.dropWhile isSpaceChar) ++
        ((l.dropWhile isSpaceChar).reverse.takeWhile isSpaceChar).reverse := by
    set F := l.dropWhile isSpaceChar with hF
    have hsplit : F.reverse.takeWhile isSpaceChar ++ F.reverse.dropWhile isSpaceChar
        = F.reverse := List.takeWhile_append_dropWhile isSpaceChar F.reverse
    have hrev := congrArg List.reverse hsplit
    rw [List.reverse_append, List.reverse_reverse] at hrev
    exact hrev.symm
  rw [h2] at h1
  rw [← List.append_assoc] at h1
  exact h1

theorem normalize_jsTrim (s : String) :
    normalizeString (jsTrim s) = normalizeString s := by
  show String.mk (normalizeChars (dropTrail isSpaceChar (s.data.dropWhile isSpaceChar)))
      = String.mk (normalizeChars s.data)
  congr 1
  conv_rhs => rw [data_decomposition s.data]
  rw [normalizeChars_affixes]
  · intro c hc
    exact List.mem_takeWhile_imp hc
  · intro c hc
    rw [List.mem_reverse] at hc
    exact List.mem_takeWhile_imp hc

example : normalizeString "  Hello, World!! " = "hello world" := by decide
example : calculateSimilarity "Hello" "hello" = 1 := rfl
example : calculateSimilarity "hell" "hello" = 4/5 := rfl
example : calculateSimilarity "alpha beta" "gamma beta" = 1/2 := by
  simp only [calculateSimilarity]
  rw [if_neg (by decide), if_neg (by decide),
    show jsSplitSpace (normalizeString "alpha beta") = ["alpha", "beta"] from by decide,
    show jsSplitSpace (normalizeString "gamma beta") = ["gamma", "beta"] from by decide,
    show List.filter
      (fun word => (["gamma", "beta"] : List String).any
        (fun w => strIncludes w word || strIncludes word w)) ["alpha", "beta"]
      = ["beta"] from by decide]
  norm_num
example : calculateSimilarity "xyz" "abc" = 0 := rfl
example : jsTrim "  ab c  " = "ab c" := by decide

/-! ## Data model (src/types/index.ts, restricted to the fields the game
logic reads) -/

/-- Artist data as embedded in a track or returned by `getArtist`.  The
optional `genres` field is modelled as a list, empty when absent (the code
only ever tests `genres && genres.length > 0`). -/
structure SpotifyArtist where
  id : String
  name : String
  genres : List String := []
deriving DecidableEq, Repr

/-- Album metadata (only the fields the game reads). -/
structure SpotifyAlbum where
  name : String
  release_date : String
deriving DecidableEq, Repr

/-- A track of the working pool.  `preview_url` is `none` for a null (or
absent) preview; the lookup services never produce an empty string, so
JavaScript truthiness of `preview_url` coincides with `isSome`. -/
structure SpotifyTrack where
  id : String
  name : String
  artists : List SpotifyArtist
  album : SpotifyAlbum
  preview_url : Option String
  popularity : ℤ
deriving DecidableEq, Repr

/-- `track.artists[0]`.  Spotify tracks always carry at least one artist;
on an empty list the JavaScript would throw, which the embedding does not
model (no claim concerns that case). -/
def primaryArtist (t : SpotifyTrack) : SpotifyArtist :=
  t.artists.headD ⟨"", "", []⟩

/-- Audio-feature descriptors used by the Spotimatch scoring (the code
reads only these three fields of the feature vector). -/
structure AudioFeatures where
  energy : ℚ
  valence : ℚ
  danceability : ℚ
deriving DecidableEq, Repr

/-! ## Preview enhancement pipeline (src/services/api.ts) -/

/-- The effect of one loop iteration of `enhanceTracksWithPreviewUrls` on
one track: tracks that already have a preview are not looked up; a
successful lookup writes the discovered URL, a failed one leaves the track
alone.  `oracle artist title` is the outcome of
`findPreviewUrlDeezer(artist, title)` for this run. -/
def enhanceTrack (oracle : String → String → Option String) (t : SpotifyTrack) :
    SpotifyTrack :=
  if t.preview_url.isSome then t
  else
    match oracle (primaryArtist t).name t.name with
    | some url => { t with preview_url := some url }
    | none => t

/-- `enhanceTracksWithPreviewUrls` from api.ts: the returned array is the
input array with the preview URL of every looked-up track for which the
oracle found one filled in, positions unchanged.  (The source performs the
lookups in throttled batches of 3; batching only affects timing, not the
resulting array.) -/
def enhanceTracksWithPreviewUrls (tracks : List SpotifyTrack)
    (oracle : String → String → Option String) : List SpotifyTrack :=
  tracks.map (enhanceTrack oracle)

theorem enhanceTrack_id (oracle : String → String → Option String)
    (t : SpotifyTrack) : (enhanceTrack oracle t).id = t.id := by
  unfold enhanceTrack
  split
  · rfl
  · split <;> rfl

theorem enhanceTrack_of_isSome (oracle : String → String → Option String)
    (t : SpotifyTrack) (h : t.preview_url.isSome) : enhanceTrack oracle t = t := by
  unfold enhanceTrack
  rw [if_pos h]

theorem enhanceTrack_preview_isSome (oracle : String → String → Option String)
    (t : SpotifyTrack) (h : t.preview_url.isSome) :
    (enhanceTrack oracle t).preview_url.isSome := by
  rw [enhanceTrack_of_isSome oracle t h]; exact h

theorem enhance_map_id (tracks : List SpotifyTrack)
    (oracle : String → String → Option String) :
    (enhanceTracksWithPreviewUrls tracks oracle).map SpotifyTrack.id =
      tracks.map SpotifyTrack.id := by
  unfold enhanceTracksWithPreviewUrls
  rw [List.map_map]
  exact List.map_congr_left (fun t _ => enhanceTrack_id oracle t)

theorem enhance_length (tracks : List SpotifyTrack)
    (oracle : String → String → Option String) :
    (enhanceTracksWithPreviewUrls tracks oracle).length = tracks.length := by
  simp [enhanceTracksWithPreviewUrls]

/-! ## Difficulty table and session state (src/components/Gotify.tsx) -/

inductive Difficulty where
  | easy
  | medium
  | hard
deriving DecidableEq, Repr

structure DifficultySetting where
  maxTurns : ℕ
  timeLimit : ℕ
  scoreMultiplier : ℚ
  hints : ℕ
deriving DecidableEq, Repr

/-- The `difficultySettings` table of Gotify.tsx. -/
def difficultySettings : Difficulty → DifficultySetting
  | .easy => ⟨5, 30, 1, 5⟩
  | .medium => ⟨10, 20, 3/2, 3⟩
  | .hard => ⟨15, 15, 2, 1⟩

/-- `Math.max(...maxTurns)` over the difficulty table. -/
def maxTurnsNeeded : ℕ :=
  max (difficultySettings .easy).maxTurns
    (max (difficultySettings .medium).maxTurns (difficultySettings .hard).maxTurns)

/-- The pool-size ceiling used by the background merge: `maxTurnsNeeded + 10`. -/
def poolCeiling : ℕ := maxTurnsNeeded + 10

inductive GuessResult where
  | correct
  | partialMatch
  | wrong
deriving DecidableEq, Repr

/-- The session state of Gotify.tsx (the fields the game logic reads or
writes; pure UI fields such as `isPlaying`, `volume`, the input box content
and the loading flags are omitted; the guess text travels on the
submit-guess event instead of being stored). -/
structure GameState where
  score : ℤ
  turn : ℕ
  timeLeft : ℕ
  gameStarted : Bool
  gameOver : Bool
  currentTrack : Option SpotifyTrack
  tracks : List SpotifyTrack
  playedTracks : List SpotifyTrack
  difficulty : Difficulty
  maxTurns : ℕ
  turnTimeLimit : ℕ
  lastGuessResult : Option GuessResult
  streak : ℕ
  hints : ℕ
  showReveal : Bool
  showHint : Bool
deriving Repr

/-- The initial `useState` value, with the freshly loaded pool. -/
def initialGameState (tracks : List SpotifyTrack) : GameState :=
  { score := 0
    turn := 0
    timeLeft := 20
    gameStarted := false
    gameOver := false
    currentTrack := none
    tracks := tracks
    playedTracks := []
    difficulty := .medium
    maxTurns := 10
    turnTimeLimit := 20
    lastGuessResult := none
    streak := 0
    hints := 3
    showReveal := false
    showHint := false }

/-- `endGame`: mark the session over (score persistence is an external
call and is not modelled). -/
def endGame (s : GameState) : GameState :=
  { s with gameOver := true }

/-- `generateRandomTrack`: pick among pool tracks with a preview that are
not yet played, mark the pick played, and reset the countdown.  The
candidate set is computed from the enclosing render's `gameState` closure
(`basisTracks`, `basisPlayed`), while the functional update applies to the
current state `s`; `Math.random()` is modelled by the externally supplied
`pick` index, reduced modulo the candidate count. -/
def generateRandomTrack (pick : ℕ)
    (basisTracks basisPlayed : List SpotifyTrack) (s : GameState) : GameState :=
  let availableTracks := basisTracks.filter
    (fun t => !(decide (t ∈ basisPlayed)) && t.preview_url.isSome)
  if h : availableTracks.length = 0 then endGame s
  else
    let randomTrack := availableTracks.get
      ⟨pick % availableTracks.length, Nat.mod_lt _ (Nat.pos_of_ne_zero h)⟩
    { s with
      currentTrack := some randomTrack
      timeLeft := s.turnTimeLimit
      showReveal := false
      showHint := false
      lastGuessResult := none
      playedTracks := s.playedTracks ++ [randomTrack] }

/-- `setDifficulty` from Gotify.tsx. -/
def setDifficulty (d : Difficulty) (s : GameState) : GameState :=
  let settings := difficultySettings d
  { s with
    difficulty := d
    maxTurns := settings.maxTurns
    turnTimeLimit := settings.timeLimit
    hints := settings.hints }

/-- `startGame`: rejected (no state change beyond the alert) when fewer
than 3 pool tracks have a preview; otherwise reset the session and pick
turn 1's track.  `generateRandomTrack` reads its candidate basis from the
pre-reset closure state. -/
def startGame (pick : ℕ) (s : GameState) : GameState :=
  let tracksWithPreviews := s.tracks.filter (fun t => t.preview_url.isSome)
  if tracksWithPreviews.length < 3 then s
  else
    let s₁ := { s with
      gameStarted := true
      score := 0
      turn := 1
      timeLeft := s.turnTimeLimit
      playedTracks := []
      streak := 0
      lastGuessResult := none
      showReveal := false
      showHint := false }
    generateRandomTrack pick s.tracks s.playedTracks s₁

/-- JavaScript `Math.round` (round half toward positive infinity). -/
def jsRound (q : ℚ) : ℤ := ⌊q + 1/2⌋

/-- The classification block of `handleGuess`: `correct` when the combined
similarity reaches 0.8 or both individual similarities do, `partial` when
any of the three reaches 0.6, otherwise `wrong`. -/
def classifySimilarity (trackSimilarity artistSimilarity combinedSimilarity : ℚ) :
    GuessResult :=
  if 4/5 ≤ combinedSimilarity ∨ (4/5 ≤ trackSimilarity ∧ 4/5 ≤ artistSimilarity)
  then GuessResult.correct
  else if 3/5 ≤ trackSimilarity ∨ 3/5 ≤ artistSimilarity ∨ 3/5 ≤ combinedSimilarity
  then GuessResult.partialMatch
  else GuessResult.wrong

/-- The score delta of `handleGuess`: the per-outcome base plus, for a
non-wrong outcome with more than 70% of the turn limit remaining, the
speed bonus (`isCorrect` is true in the source for both `correct` and
`partial`). -/
def guessScoreDelta (result : GuessResult) (streak : ℕ)
    (scoreMultiplier : ℚ) (timeLeft turnTimeLimit : ℕ) : ℤ :=
  let base : ℤ :=
    match result with
    | .correct => jsRound (10 * scoreMultiplier * (1 + (streak : ℚ) * (1/10)))
    | .partialMatch => jsRound (5 * scoreMultiplier)
    | .wrong => -2
  let bonus : ℤ :=
    if result ≠ .wrong ∧ (turnTimeLimit : ℚ) * (7/10) < (timeLeft : ℚ)
    then jsRound (3 * scoreMultiplier) else 0
  base + bonus

/-- `handleGuess` from Gotify.tsx: guard, similarity computation against
title, primary artist and their concatenation, classification, score delta
with speed bonus, streak update. -/
def handleGuess (text : String) (s : GameState) : GameState :=
  match s.currentTrack with
  | none => s
  | some currentTrack =>
    if jsTrim text = "" then s
    else
      let guess := jsTrim text
      let trackName := currentTrack.name
      let artistName := (primaryArtist currentTrack).name
      let trackSimilarity := calculateSimilarity guess trackName
      let artistSimilarity := calculateSimilarity guess artistName
      let combinedSimilarity :=
        calculateSimilarity guess (trackName ++ " " ++ artistName)
      let settings := difficultySettings s.difficulty
      let result :=
        classifySimilarity trackSimilarity artistSimilarity combinedSimilarity
      { s with
        score := max 0 (s.score + guessScoreDelta result s.streak
          settings.scoreMultiplier s.timeLeft s.turnTimeLimit)
        showReveal := true
        lastGuessResult := some result
        streak := if result = .wrong then 0 else s.streak + 1 }

/-- `useHint` from Gotify.tsx. -/
def useHint (s : GameState) : GameState :=
  if s.hints = 0 ∨ s.showHint = true then s
  else { s with
    hints := s.hints - 1
    showHint := true
    score := max 0 (s.score - 1) }

/-- `handleReveal` (the give-up action) from Gotify.tsx. -/
def handleReveal (s : GameState) : GameState :=
  { s with
    showReveal := true
    lastGuessResult := some .wrong
    score := max 0 (s.score - 3)
    streak := 0 }

/-- `handleTimeUp` from Gotify.tsx. -/
def handleTimeUp (s : GameState) : GameState :=
  { s with
    score := max 0 (s.score - 2)
    showReveal := true
    lastGuessResult := some .wrong
    streak := 0 }

/-- `nextTurn` from Gotify.tsx. -/
def nextTurn (pick : ℕ) (s : GameState) : GameState :=
  if s.maxTurns ≤ s.turn then endGame s
  else
    let s₁ := { s with
      turn := s.turn + 1
      showReveal := false
      showHint := false }
    generateRandomTrack pick s.tracks s.playedTracks s₁

/-- `restartGame` from Gotify.tsx. -/
def restartGame (s : GameState) : GameState :=
  { s with
    score := 0
    turn := 0
    timeLeft := s.turnTimeLimit
    gameStarted := false
    gameOver := false
    currentTrack := none
    showReveal := false
    playedTracks := []
    lastGuessResult := none
    streak := 0
    showHint := false
    hints := (difficultySettings s.difficulty).hints }

/-! ## Track acquisition pipeline (Gotify.tsx) -/

/-- The deduplication step of `loadAdditionalTracksInBackground`:
`allTracks.filter((track, index, self) => index === self.findIndex(t => t.id === track.id))`,
keeping exactly the first occurrence of every track identifier. -/
def dedupeById (l : List SpotifyTrack) : List SpotifyTrack :=
  (l.enum.filter
    (fun it => l.findIdx (fun t => t.id == it.2.id) == it.1)).map Prod.snd

/-- The pool merge of `loadAdditionalTracksInBackground`: append the two
background batches, deduplicate by identifier, truncate to the pool-size
ceiling. -/
def mergeBackgroundBatches (pool shortTerm longTerm : List SpotifyTrack) :
    List SpotifyTrack :=
  ((dedupeById (pool ++ shortTerm ++ longTerm)).take poolCeiling)

/-- State effect of `loadAdditionalTracksInBackground` once both batch
requests have resolved (a failed request contributes `[]`). -/
def loadAdditionalTracks (shortTerm longTerm : List SpotifyTrack)
    (s : GameState) : GameState :=
  { s with tracks := mergeBackgroundBatches s.tracks shortTerm longTerm }

/-- Write the elements of the first list over the initial positions of the
second, stopping at the end of the shorter: the effect of the indexed
`forEach` loops `updatedTracks[index] = enhancedTrack` guarded by
`index < updatedTracks.length`. -/
def overwriteStart : List SpotifyTrack → List SpotifyTrack → List SpotifyTrack
  | [], cur => cur
  | _ :: _, [] => []
  | e :: es, _ :: cs => e :: overwriteStart es cs

/-- The pool write-back of `enhanceRemainingTracksInBackground`: the
enhanced array (computed from a snapshot's `tracks.slice(3)`) is written
at positions `index + 3` of the current pool, each write guarded by
`actualIndex < updatedTracks.length`. -/
def applyBackgroundUpdates (enhanced current : List SpotifyTrack) :
    List SpotifyTrack :=
  current.take 3 ++ overwriteStart enhanced (current.drop 3)

/-- The pool write-back of `enhanceInitialTracksQuickly`: the enhanced
array (computed from a snapshot's `tracks.slice(0, 3)`) is written at
positions `index` of the current pool. -/
def applyInitialUpdates (enhanced current : List SpotifyTrack) :
    List SpotifyTrack :=
  overwriteStart enhanced current

/-- State effect of `enhanceInitialTracksQuickly` (snapshot and write-back
against the same pool: between the snapshot and the write the pool is only
ever appended to, so positions 0–2 are stable). -/
def enhanceInitialTracksQuickly (oracle : String → String → Option String)
    (s : GameState) : GameState :=
  let enhanced := enhanceTracksWithPreviewUrls (s.tracks.take 3) oracle
  { s with tracks := applyInitialUpdates enhanced s.tracks }

/-- State effect of `enhanceRemainingTracksInBackground` (snapshot and
write-back against the same pool, as above). -/
def enhanceRemainingTracksInBackground
    (oracle : String → String → Option String) (s : GameState) : GameState :=
  let enhanced := enhanceTracksWithPreviewUrls (s.tracks.drop 3) oracle
  { s with tracks := applyBackgroundUpdates enhanced s.tracks }

/-! ## Session events -/

/-- One user-visible or pipeline event of a session.  Picks carry the
random index, guesses carry the submitted text, enhancement events carry
the lookup outcomes, background loading carries the two fetched batches. -/
inductive GameEvent where
  | setDifficulty (d : Difficulty)
  | startGame (pick : ℕ)
  | submitGuess (text : String)
  | useHint
  | giveUp
  | timeUp
  | nextTurn (pick : ℕ)
  | restart
  | enhanceInitial (oracle : String → String → Option String)
  | enhanceRemaining (oracle : String → String → Option String)
  | loadBackground (shortTerm longTerm : List SpotifyTrack)

/-- Dispatch one event to the corresponding handler. -/
def step (s : GameState) : GameEvent → GameState
  | .setDifficulty d => setDifficulty d s
  | .startGame pick => startGame pick s
  | .submitGuess text => handleGuess text s
  | .useHint => useHint s
  | .giveUp => handleReveal s
  | .timeUp => handleTimeUp s
  | .nextTurn pick => nextTurn pick s
  | .restart => restartGame s
  | .enhanceInitial oracle => enhanceInitialTracksQuickly oracle s
  | .enhanceRemaining oracle => enhanceRemainingTracksInBackground oracle s
  | .loadBackground shortTerm longTerm => loadAdditionalTracks shortTerm longTerm s

/-- Run a session from a state through a sequence of events. -/
def runGame (s : GameState) (evs : List GameEvent) : GameState :=
  evs.foldl step s

/-! ## Properties of the deduplication step -/

theorem find?_eq_getElem?_findIdx (p : SpotifyTrack → Bool) (l : List SpotifyTrack) :
    l.find? p = l[l.findIdx p]? := by
  induction l with
  | nil => rfl
  | cons a t ih =>
    rw [List.find?_cons, List.findIdx_cons]
    cases hp : p a with
    | true => simp
    | false => simp [ih]

theorem mem_dedupeById {l : List SpotifyTrack} {x : SpotifyTrack} :
    x ∈ dedupeById l ↔ l[l.findIdx (fun u => u.id == x.id)]? = some x := by
  unfold dedupeById
  rw [List.mem_map]
  constructor
  · rintro ⟨⟨i, t⟩, hmem, rfl⟩
    rw [List.mem_filter] at hmem
    obtain ⟨henum, hcond⟩ := hmem
    have hidx : l.findIdx (fun u => u.id == t.id) = i := by
      simpa using hcond
    rw [hidx]
    exact List.mem_enum_iff_getElem?.mp henum
  · intro h
    refine ⟨(l.findIdx (fun u => u.id == x.id), x), ?_, rfl⟩
    rw [List.mem_filter]
    exact ⟨List.mem_enum_iff_getElem?.mpr h, by simp⟩

theorem dedupeById_nodup (l : List SpotifyTrack) : (dedupeById l).Nodup := by
  have henum : l.enum.Nodup := by
    apply List.Nodup.of_map Prod.fst
    rw [List.enum_map_fst]
    exact List.nodup_range _
  have hfil := henum.filter
    (fun it => l.findIdx (fun t => t.id == it.2.id) == it.1)
  apply hfil.map_on
  rintro ⟨i, t⟩ hi ⟨j, u⟩ hj (h : t = u)
  rw [List.mem_filter] at hi hj
  have hit : l.findIdx (fun v => v.id == t.id) = i := by simpa using hi.2
  have hju : l.findIdx (fun v => v.id == u.id) = j := by simpa using hj.2
  subst h
  rw [hit] at hju
  rw [hju]

theorem dedupeById_ids_nodup (l : List SpotifyTrack) :
    ((dedupeById l).map SpotifyTrack.id).Nodup := by
  apply (dedupeById_nodup l).map_on
  intro x hx y hy hxy
  rw [mem_dedupeById] at hx hy
  have hpred : (fun u : SpotifyTrack => u.id == x.id) = (fun u => u.id == y.id) := by
    funext u; rw [hxy]
  rw [hpred] at hx
  rw [hx] at hy
  exact Option.some_injective _ hy

theorem dedupeById_first_seen {l : List SpotifyTrack} {x : SpotifyTrack}
    (hx : x ∈ dedupeById l) : l.find? (fun u => u.id == x.id) = some x := by
  rw [find?_eq_getElem?_findIdx]
  exact mem_dedupeById.mp hx

theorem dedupeById_complete {l : List SpotifyTrack} {tid : String}
    (h : tid ∈ l.map SpotifyTrack.id) :
    ∃ x ∈ dedupeById l, x.id = tid := by
  rw [List.mem_map] at h
  obtain ⟨w, hw, hwid⟩ := h
  have hex : ∃ u ∈ l, (u.id == tid) = true := ⟨w, hw, by simp [hwid]⟩
  have hlt : l.findIdx (fun u => u.id == tid) < l.length :=
    List.findIdx_lt_length_of_exists hex
  set i := l.findIdx (fun u => u.id == tid) with hi
  refine ⟨l[i], ?_, ?_⟩
  · rw [mem_dedupeById]
    have hxid : l[i].id = tid := by
      have := @List.findIdx_getElem _ (fun u => u.id == tid) l hlt
      simpa using this
    have hpred : (fun u : SpotifyTrack => u.id == l[i].id) = (fun u => u.id == tid) := by
      funext u; rw [hxid]
    rw [hpred, ← hi]
    exact List.getElem?_eq_some_iff.mpr ⟨hlt, rfl⟩
  · have := @List.findIdx_getElem _ (fun u => u.id == tid) l hlt
    simpa using this

theorem dedupeById_append_left {l₁ l₂ : List SpotifyTrack}
    (h : (l₁.map SpotifyTrack.id).Nodup) :
    ∃ r, dedupeById (l₁ ++ l₂) = l₁ ++ r := by
  unfold dedupeById
  rw [List.enum_append, List.filter_append, List.map_append]
  have hfirst : List.filter
      (fun it => (l₁ ++ l₂).findIdx (fun t => t.id == it.2.id) == it.1) l₁.enum
      = l₁.enum := by
    rw [List.filter_eq_self]
    rintro ⟨i, t⟩ hmem
    have hget : l₁[i]? = some t := List.mem_enum_iff_getElem?.mp hmem
    obtain ⟨hlen, hgetl⟩ := List.getElem?_eq_some_iff.mp hget
    have hfind1 : l₁.findIdx (fun u => u.id == t.id) = i := by
      rw [List.findIdx_eq hlen]
      constructor
      · simp [hgetl]
      · intro j hji
        by_contra hcon
        have htrue : l₁[j].id = t.id := by
          have := eq_true_of_ne_false hcon
          simpa using this
        have hji' : (j : ℕ) < l₁.length := lt_trans hji hlen
        have hinj := List.inj_on_of_nodup_map h
        have heq : l₁[j] = l₁[i] :=
          hinj (List.getElem_mem hji') (List.getElem_mem hlen)
            (by rw [htrue, hgetl])
        have : j = i := by
          have hnd : l₁.Nodup := List.Nodup.of_map _ h
          exact (List.Nodup.getElem_inj_iff hnd).mp heq
        omega
    have happ : (l₁ ++ l₂).findIdx (fun u => u.id == t.id) = i := by
      rw [List.findIdx_append]
      rw [hfind1]
      rw [if_pos hlen]
    simp [happ]
  rw [hfirst, List.enum_map_snd]
  exact ⟨_, rfl⟩

/-! ## Properties of the positional write-backs -/

theorem overwriteStart_length (e c : List SpotifyTrack) :
    (overwriteStart e c).length = c.length := by
  induction e generalizing c with
  | nil => rfl
  | cons x es ih =>
    cases c with
    | nil => rfl
    | cons y cs => simpa [overwriteStart] using ih cs

theorem overwriteStart_map_take (g : SpotifyTrack → SpotifyTrack)
    (c : List SpotifyTrack) (n : ℕ) :
    overwriteStart ((c.take n).map g) c = (c.take n).map g ++ c.drop n := by
  induction c generalizing n with
  | nil => cases n <;> rfl
  | cons x cs ih =>
    cases n with
    | zero => rfl
    | succ m => simpa [overwriteStart] using ih m

theorem overwriteStart_map_self (g : SpotifyTrack → SpotifyTrack)
    (d : List SpotifyTrack) : overwriteStart (d.map g) d = d.map g := by
  have h := overwriteStart_map_take g d d.length
  simpa using h

theorem applyInitialUpdates_eq (oracle : String → String → Option String)
    (c : List SpotifyTrack) :
    applyInitialUpdates (enhanceTracksWithPreviewUrls (c.take 3) oracle) c =
      (c.take 3).map (enhanceTrack oracle) ++ c.drop 3 :=
  overwriteStart_map_take (enhanceTrack oracle) c 3

theorem applyBackgroundUpdates_eq (oracle : String → String → Option String)
    (c : List SpotifyTrack) :
    applyBackgroundUpdates (enhanceTracksWithPreviewUrls (c.drop 3) oracle) c =
      c.take 3 ++ (c.drop 3).map (enhanceTrack oracle) := by
  unfold applyBackgroundUpdates
  rw [show enhanceTracksWithPreviewUrls (c.drop 3) oracle
      = (c.drop 3).map (enhanceTrack oracle) from rfl,
    overwriteStart_map_self]

theorem map_id_of_segment_map (oracle : String → String → Option String)
    (pre mid post : List SpotifyTrack) :
    ((pre ++ mid.map (enhanceTrack oracle) ++ post).map SpotifyTrack.id) =
      (pre ++ mid ++ post).map SpotifyTrack.id := by
  simp only [List.map_append, List.map_map]
  have hmid : mid.map (SpotifyTrack.id ∘ enhanceTrack oracle) = mid.map SpotifyTrack.id :=
    List.map_congr_left (fun t _ => enhanceTrack_id oracle t)
  rw [hmid]

theorem mem_map_enhance_of_isSome (oracle : String → String → Option String)
    {p : SpotifyTrack} {seg : List SpotifyTrack} (hp : p ∈ seg)
    (hsome : p.preview_url.isSome) : p ∈ seg.map (enhanceTrack oracle) := by
  rw [List.mem_map]
  exact ⟨p, hp, enhanceTrack_of_isSome oracle p hsome⟩

/-! ## Session invariant: pool and played-set coherence -/

/-- Invariant of a running session: pool identifiers are pairwise
distinct, the pool respects the size ceiling, every played track is a
pool entry with a preview, and played identifiers are pairwise distinct. -/
def PoolInv (s : GameState) : Prop :=
  (s.tracks.map SpotifyTrack.id).Nodup ∧
  s.tracks.length ≤ poolCeiling ∧
  (∀ p ∈ s.playedTracks, p ∈ s.tracks ∧ p.preview_url.isSome = true) ∧
  (s.playedTracks.map SpotifyTrack.id).Nodup

theorem same_id_eq_of_nodup {l : List SpotifyTrack}
    (h : (l.map SpotifyTrack.id).Nodup) {x y : SpotifyTrack}
    (hx : x ∈ l) (hy : y ∈ l) (hid : x.id = y.id) : x = y :=
  List.inj_on_of_nodup_map h hx hy hid

theorem generateRandomTrack_inv (pick : ℕ) (bT bP : List SpotifyTrack)
    (s : GameState) (hT : bT = s.tracks)
    (hP : ∀ x ∈ s.playedTracks, x ∈ bP) (hinv : PoolInv s) :
    PoolInv (generateRandomTrack pick bT bP s) := by
  subst hT
  obtain ⟨h1, h2, h3, h4⟩ := hinv
  unfold generateRandomTrack
  dsimp only
  split
  · exact ⟨h1, h2, h3, h4⟩
  · next hne =>
    set avail := s.tracks.filter
      (fun t => !(decide (t ∈ bP)) && t.preview_url.isSome) with havail
    set c := avail.get ⟨pick % avail.length, Nat.mod_lt _ (Nat.pos_of_ne_zero hne)⟩
      with hc
    have hcav : c ∈ avail := List.get_mem _ _ _
    rw [havail, List.mem_filter] at hcav
    obtain ⟨hcpool, hccond⟩ := hcav
    have hcnotbp : c ∉ bP := by
      intro hmem
      simp [hmem] at hccond
    have hcsome : c.preview_url.isSome = true := by
      simp at hccond
      exact hccond.2
    refine ⟨h1, h2, ?_, ?_⟩
    · intro p hp
      rcases List.mem_append.mp hp with hp | hp
      · exact h3 p hp
      · rw [List.mem_singleton.mp hp]
        exact ⟨hcpool, hcsome⟩
    · rw [List.map_append, List.nodup_append]
      refine ⟨h4, by simp, ?_⟩
      intro a ha hb
      rw [List.mem_map] at ha
      obtain ⟨p, hpmem, rfl⟩ := ha
      have hb' : p.id = c.id := by simpa using hb
      have hpc' : p = c :=
        same_id_eq_of_nodup h1 (h3 p hpmem).1 hcpool hb'
      exact hcnotbp (hP c (hpc' ▸ hpmem))

theorem step_inv (s : GameState) (e : GameEvent) (hinv : PoolInv s) :
    PoolInv (step s e) := by
  obtain ⟨h1, h2, h3, h4⟩ := hinv
  cases e with
  | setDifficulty d => exact ⟨h1, h2, h3, h4⟩
  | startGame pick =>
    show PoolInv (startGame pick s)
    unfold startGame
    dsimp only
    split
    · exact ⟨h1, h2, h3, h4⟩
    · apply generateRandomTrack_inv
      · rfl
      · intro x hx
        exact absurd hx (List.not_mem_nil x)
      · exact ⟨h1, h2, by intro p hp; exact absurd hp (List.not_mem_nil p), by simp⟩
  | submitGuess text =>
    show PoolInv (handleGuess text s)
    unfold handleGuess
    split
    · exact ⟨h1, h2, h3, h4⟩
    · split
      · exact ⟨h1, h2, h3, h4⟩
      · exact ⟨h1, h2, h3, h4⟩
  | useHint =>
    show PoolInv (useHint s)
    unfold useHint
    split
    · exact ⟨h1, h2, h3, h4⟩
    · exact ⟨h1, h2, h3, h4⟩
  | giveUp => exact ⟨h1, h2, h3, h4⟩
  | timeUp => exact ⟨h1, h2, h3, h4⟩
  | nextTurn pick =>
    show PoolInv (nextTurn pick s)
    unfold nextTurn
    dsimp only
    split
    · exact ⟨h1, h2, h3, h4⟩
    · apply generateRandomTrack_inv
      · rfl
      · intro x hx
        exact hx
      · exact ⟨h1, h2, h3, h4⟩
  | restart =>
    show PoolInv (restartGame s)
    unfold restartGame
    exact ⟨h1, h2, (by intro p hp; exact absurd hp (List.not_mem_nil p)), (by simp)⟩
  | enhanceInitial oracle =>
    show PoolInv { s with tracks := applyInitialUpdates (enhanceTracksWithPreviewUrls (s.tracks.take 3) oracle) s.tracks }
    rw [applyInitialUpdates_eq]
    have hsplit : s.tracks.take 3 ++ s.tracks.drop 3 = s.tracks :=
      List.take_append_drop 3 s.tracks
    refine ⟨?_, ?_, ?_, h4⟩
    · have := map_id_of_segment_map oracle [] (s.tracks.take 3) (s.tracks.drop 3)
      simp only [List.nil_append] at this
      rw [this, hsplit]
      exact h1
    · rw [List.length_append, List.length_map, ← List.length_append, hsplit]
      exact h2
    · intro p hp
      obtain ⟨hmem, hsome⟩ := h3 p hp
      refine ⟨?_, hsome⟩
      rw [← hsplit] at hmem
      rcases List.mem_append.mp hmem with hm | hm
      · exact List.mem_append.mpr (Or.inl (mem_map_enhance_of_isSome oracle hm hsome))
      · exact List.mem_append.mpr (Or.inr hm)
  | enhanceRemaining oracle =>
    show PoolInv { s with tracks := applyBackgroundUpdates (enhanceTracksWithPreviewUrls (s.tracks.drop 3) oracle) s.tracks }
    rw [applyBackgroundUpdates_eq]
    have hsplit : s.tracks.take 3 ++ s.tracks.drop 3 = s.tracks :=
      List.take_append_drop 3 s.tracks
    refine ⟨?_, ?_, ?_, h4⟩
    · have := map_id_of_segment_map oracle (s.tracks.take 3) (s.tracks.drop 3) []
      simp only [List.append_nil] at this
      rw [this, hsplit]
      exact h1
    · rw [List.length_append, List.length_map, ← List.length_append, hsplit]
      exact h2
    · intro p hp
      obtain ⟨hmem, hsome⟩ := h3 p hp
      refine ⟨?_, hsome⟩
      rw [← hsplit] at hmem
      rcases List.mem_append.mp hmem with hm | hm
      · exact List.mem_append.mpr (Or.inl hm)
      · exact List.mem_append.mpr (Or.inr (mem_map_enhance_of_isSome oracle hm hsome))
  | loadBackground shortTerm longTerm =>
    show PoolInv { s with tracks := (dedupeById (s.tracks ++ shortTerm ++ longTerm)).take poolCeiling }
    obtain ⟨r, hr⟩ := @dedupeById_append_left s.tracks (shortTerm ++ longTerm) h1
    have hassoc : s.tracks ++ shortTerm ++ longTerm
        = s.tracks ++ (shortTerm ++ longTerm) := by
      rw [List.append_assoc]
    refine ⟨?_, ?_, ?_, h4⟩
    · apply List.Nodup.sublist (List.Sublist.map _ (List.take_sublist _ _))
      exact dedupeById_ids_nodup _
    · exact List.length_take_le _ _
    · intro p hp
      obtain ⟨hmem, hsome⟩ := h3 p hp
      refine ⟨?_, hsome⟩
      rw [hassoc, hr, List.take_append_eq_append_take,
        List.take_of_length_le h2]
      exact List.mem_append.mpr (Or.inl hmem)

theorem runGame_inv (s : GameState) (evs : List GameEvent) (hinv : PoolInv s) :
    PoolInv (runGame s evs) := by
  induction evs generalizing s with
  | nil => exact hinv
  | cons e evs ih => exact ih (step s e) (step_inv s e hinv)

/-! ## Score floor -/

theorem generateRandomTrack_score (pick : ℕ) (bT bP : List SpotifyTrack)
    (s : GameState) : (generateRandomTrack pick bT bP s).score = s.score := by
  unfold generateRandomTrack
  dsimp only
  split
  · rfl
  · rfl

theorem step_score_nonneg (s : GameState) (e : GameEvent) (h : 0 ≤ s.score) :
    0 ≤ (step s e).score := by
  cases e with
  | setDifficulty d => exact h
  | startGame pick =>
    show 0 ≤ (startGame pick s).score
    unfold startGame
    dsimp only
    split
    · exact h
    · rw [generateRandomTrack_score]
  | submitGuess text =>
    show 0 ≤ (handleGuess text s).score
    unfold handleGuess
    split
    · exact h
    · split
      · exact h
      · exact le_max_left 0 _
  | useHint =>
    show 0 ≤ (useHint s).score
    unfold useHint
    split
    · exact h
    · exact le_max_left 0 _
  | giveUp => exact le_max_left 0 _
  | timeUp => exact le_max_left 0 _
  | nextTurn pick =>
    show 0 ≤ (nextTurn pick s).score
    unfold nextTurn
    dsimp only
    split
    · exact h
    · rw [generateRandomTrack_score]
      exact h
  | restart => exact le_refl 0
  | enhanceInitial oracle => exact h
  | enhanceRemaining oracle => exact h
  | loadBackground shortTerm longTerm => exact h

theorem runGame_score_nonneg (s : GameState) (evs : List GameEvent)
    (h : 0 ≤ s.score) : 0 ≤ (runGame s evs).score := by
  induction evs generalizing s with
  | nil => exact h
  | cons e evs ih => exact ih (step s e) (step_score_nonneg s e h)

/-! ## Recommendation reasons (src/components/Spotimatch.tsx) -/

/-- `generateMatchReasons` from Spotimatch.tsx: reasons are pushed in
source order — same artist, leading genre of the seed artist (when genre
data is present), close popularity, close audio descriptors (when both
feature vectors are present), dual preview availability — and a fallback
reason is pushed when the list would otherwise be empty. -/
def generateMatchReasons (seedTrack recTrack : SpotifyTrack)
    (seedArtist : SpotifyArtist)
    (seedAudioFeatures recAudioFeatures : Option AudioFeatures) : List String :=
  let reasons₀ : List String := []
  let reasons₁ :=
    if seedTrack.artists.any
        (fun artist => recTrack.artists.any (fun recArtist => recArtist.id == artist.id))
    then reasons₀ ++ ["Same artist"] else reasons₀
  let reasons₂ :=
    if seedArtist.genres.length > 0
    then reasons₁ ++ ["Similar to " ++ seedArtist.genres.headD "" ++ " genre"]
    else reasons₁
  let popularityDiff := |seedTrack.popularity - recTrack.popularity|
  let reasons₃ :=
    if popularityDiff < 15 then reasons₂ ++ ["Similar popularity level"] else reasons₂
  let reasons₄ :=
    match seedAudioFeatures, recAudioFeatures with
    | some sf, some rf =>
      let energyDiff := |sf.energy - rf.energy|
      let valenceDiff := |sf.valence - rf.valence|
      let danceabilityDiff := |sf.danceability - rf.danceability|
      ((reasons₃ ++ (if energyDiff < 1/5 then ["Similar energy level"] else []))
        ++ (if valenceDiff < 1/5 then ["Similar mood/vibe"] else []))
        ++ (if danceabilityDiff < 1/5 then ["Similar danceability"] else [])
    | _, _ => reasons₃
  let reasons₅ :=
    if seedTrack.preview_url.isSome && recTrack.preview_url.isSome
    then reasons₄ ++ ["Both have audio previews"] else reasons₄
  if reasons₅.length = 0 then ["Recommended by Spotify algorithm"] else reasons₅

/-- The reasons list as the amended claim words it: every reason accrues
independently exactly under its condition, where the genre reason's
condition is the mere presence of seed-artist genre data — the source
never consults the candidate's genres (tracks carry none), so no sharing
check exists; the reason names the seed artist's leading genre tag — and
the fallback appears exactly when no other reason applies. -/
def claimedMatchReasons (seedTrack recTrack : SpotifyTrack)
    (seedArtist : SpotifyArtist) (sf rf : Option AudioFeatures) : List String :=
  let l :=
    (if ∃ a ∈ seedTrack.artists, ∃ b ∈ recTrack.artists, b.id = a.id
      then ["Same artist"] else []) ++
    (if seedArtist.genres ≠ []
      then ["Similar to " ++ seedArtist.genres.headD "" ++ " genre"] else []) ++
    (if |seedTrack.popularity - recTrack.popularity| < 15
      then ["Similar popularity level"] else []) ++
    (match sf, rf with
     | some f₁, some f₂ =>
       (if |f₁.energy - f₂.energy| < 1/5 then ["Similar energy level"] else []) ++
       (if |f₁.valence - f₂.valence| < 1/5 then ["Similar mood/vibe"] else []) ++
       (if |f₁.danceability - f₂.danceability| < 1/5 then ["Similar danceability"] else [])
     | _, _ => []) ++
    (if seedTrack.preview_url.isSome = true ∧ recTrack.preview_url.isSome = true
      then ["Both have audio previews"] else [])
  if l = [] then ["Recommended by Spotify algorithm"] else l

set_option maxHeartbeats 2000000 in
theorem generateMatchReasons_eq_claimed (seedTrack recTrack : SpotifyTrack)
    (seedArtist : SpotifyArtist) (sf rf : Option AudioFeatures) :
    generateMatchReasons seedTrack recTrack seedArtist sf rf =
      claimedMatchReasons seedTrack recTrack seedArtist sf rf := by
  unfold generateMatchReasons claimedMatchReasons
  cases sf <;> cases rf <;>
    simp only [List.nil_append, List.any_eq_true, beq_iff_eq, gt_iff_lt,
      List.length_pos, Bool.and_eq_true, List.length_eq_zero,
      List.append_assoc] <;>
    split_ifs <;> simp_all

/-! ## Identifier-matched application (the behaviour the spec claims for
the background enhancement write-back) -/

/-- Modelled from the claim's words: apply each enhanced track to the pool
entry whose identifier matches it, leaving every other entry unchanged. -/
def applyUpdatesById (enhanced current : List SpotifyTrack) :
    List SpotifyTrack :=
  current.map (fun t =>
    match enhanced.find? (fun u => u.id == t.id) with
    | some u => u
    | none => t)

/-- The claim's property for one background run: the positional write-back
coincides with identifier-matched application on the current pool. -/
def backgroundUpdateLandsById (snapshot current : List SpotifyTrack)
    (oracle : String → String → Option String) : Prop :=
  applyBackgroundUpdates (enhanceTracksWithPreviewUrls (snapshot.drop 3) oracle)
      current
    = applyUpdatesById (enhanceTracksWithPreviewUrls (snapshot.drop 3) oracle)
      current

theorem find?_map_of_id_not_mem (g : SpotifyTrack → SpotifyTrack)
    (hg : ∀ t, (g t).id = t.id) {l : List SpotifyTrack} {tid : String}
    (h : tid ∉ l.map SpotifyTrack.id) :
    (l.map g).find? (fun u => u.id == tid) = none := by
  induction l with
  | nil => rfl
  | cons a tl ih =>
    have ha : ¬ a.id = tid := by
      intro hc
      exact h (by simp [hc])
    rw [List.map_cons, List.find?_cons]
    have hcond : ((g a).id == tid) = false := by
      rw [hg a]
      simpa using ha
    rw [hcond]
    exact ih (fun hc => h (List.mem_cons_of_mem _ hc))

theorem find?_map_of_mem (g : SpotifyTrack → SpotifyTrack)
    (hg : ∀ t, (g t).id = t.id) {l : List SpotifyTrack} {t : SpotifyTrack}
    (hnd : (l.map SpotifyTrack.id).Nodup) (hmem : t ∈ l) :
    (l.map g).find? (fun u => u.id == t.id) = some (g t) := by
  induction l with
  | nil => cases hmem
  | cons a tl ih =>
    rw [List.map_cons] at hnd
    rw [List.map_cons, List.find?_cons]
    rcases List.mem_cons.mp hmem with rfl | hmem'
    · have hcond : ((g t).id == t.id) = true := by
        rw [hg t]
        simp
      rw [hcond]
    · have ha : ¬ a.id = t.id := by
        intro hc
        have : t.id ∈ tl.map SpotifyTrack.id :=
          List.mem_map.mpr ⟨t, hmem', rfl⟩
        rw [← hc] at this
        exact (List.nodup_cons.mp hnd).1 this
      have hcond : ((g a).id == t.id) = false := by
        rw [hg a]
        simpa using ha
      rw [hcond]
      exact ih (List.nodup_cons.mp hnd).2 hmem'

theorem applyUpdatesById_split (g : SpotifyTrack → SpotifyTrack)
    (hg : ∀ t, (g t).id = t.id) (pre post : List SpotifyTrack)
    (hnd : ((pre ++ post).map SpotifyTrack.id).Nodup) :
    applyUpdatesById (post.map g) (pre ++ post) = pre ++ post.map g := by
  rw [List.map_append, List.nodup_append] at hnd
  obtain ⟨hnd₁, hnd₂, hdisj⟩ := hnd
  unfold applyUpdatesById
  rw [List.map_append]
  congr 1
  · have hfix : ∀ t ∈ pre,
        (match (post.map g).find? (fun u => u.id == t.id) with
          | some u => u
          | none => t) = t := by
      intro t ht
      have htid : t.id ∉ post.map SpotifyTrack.id := by
        intro hc
        exact hdisj (List.mem_map.mpr ⟨t, ht, rfl⟩) hc
      rw [find?_map_of_id_not_mem g hg htid]
    calc pre.map _ = pre.map id := List.map_congr_left hfix
      _ = pre := List.map_id _
  · apply List.map_congr_left
    intro t ht
    rw [find?_map_of_mem g hg hnd₂ ht]

theorem applyUpdatesById_eq_segments (oracle : String → String → Option String)
    (snapshot : List SpotifyTrack)
    (h : (snapshot.map SpotifyTrack.id).Nodup) :
    applyUpdatesById
        (enhanceTracksWithPreviewUrls (snapshot.drop 3) oracle) snapshot =
      snapshot.take 3 ++ (snapshot.drop 3).map (enhanceTrack oracle) := by
  have hsplit : snapshot.take 3 ++ snapshot.drop 3 = snapshot :=
    List.take_append_drop 3 snapshot
  have hnd : ((snapshot.take 3 ++ snapshot.drop 3).map SpotifyTrack.id).Nodup := by
    rw [hsplit]; exact h
  have hmain := applyUpdatesById_split (enhanceTrack oracle)
    (enhanceTrack_id oracle) (snapshot.take 3) (snapshot.drop 3) hnd
  rw [hsplit] at hmain
  exact hmain

/-! ## Guess classification and scoring lemmas -/

theorem calculateSimilarity_jsTrim (g x : String) :
    calculateSimilarity (jsTrim g) x = calculateSimilarity g x := by
  unfold calculateSimilarity
  rw [normalize_jsTrim]

theorem calculateSimilarity_of_norm_eq {g x : String}
    (h : normalizeString g = normalizeString x) : calculateSimilarity g x = 1 := by
  unfold calculateSimilarity
  rw [if_pos h]

theorem classifySimilarity_correct_iff (ts as' cs : ℚ) :
    classifySimilarity ts as' cs = GuessResult.correct ↔
      (4/5 ≤ cs ∨ (4/5 ≤ ts ∧ 4/5 ≤ as')) := by
  unfold classifySimilarity
  split_ifs with h1 h2 <;> simp_all

theorem classifySimilarity_partial_iff (ts as' cs : ℚ) :
    classifySimilarity ts as' cs = GuessResult.partialMatch ↔
      (¬(4/5 ≤ cs ∨ (4/5 ≤ ts ∧ 4/5 ≤ as')) ∧
        (3/5 ≤ ts ∨ 3/5 ≤ as' ∨ 3/5 ≤ cs)) := by
  unfold classifySimilarity
  split_ifs with h1 h2 <;> simp_all

theorem classifySimilarity_wrong_iff (ts as' cs : ℚ) :
    classifySimilarity ts as' cs = GuessResult.wrong ↔
      (¬(4/5 ≤ cs ∨ (4/5 ≤ ts ∧ 4/5 ≤ as')) ∧
        ¬(3/5 ≤ ts ∨ 3/5 ≤ as' ∨ 3/5 ≤ cs)) := by
  unfold classifySimilarity
  split_ifs with h1 h2 <;> simp_all

theorem handleGuess_guard_none (text : String) (s : GameState)
    (h : s.currentTrack = none) : handleGuess text s = s := by
  unfold handleGuess
  rw [h]

theorem handleGuess_guard_empty (text : String) (s : GameState)
    (h : jsTrim text = "") : handleGuess text s = s := by
  unfold handleGuess
  cases htr : s.currentTrack with
  | none => rfl
  | some tr =>
    dsimp only
    rw [if_pos h]

theorem handleGuess_eq (text : String) (s : GameState) (tr : SpotifyTrack)
    (htr : s.currentTrack = some tr) (hne : jsTrim text ≠ "") :
    handleGuess text s =
      { s with
        score := max 0 (s.score + guessScoreDelta
          (classifySimilarity
            (calculateSimilarity (jsTrim text) tr.name)
            (calculateSimilarity (jsTrim text) (primaryArtist tr).name)
            (calculateSimilarity (jsTrim text)
              (tr.name ++ " " ++ (primaryArtist tr).name)))
          s.streak (difficultySettings s.difficulty).scoreMultiplier
          s.timeLeft s.turnTimeLimit)
        showReveal := true
        lastGuessResult := some (classifySimilarity
          (calculateSimilarity (jsTrim text) tr.name)
          (calculateSimilarity (jsTrim text) (primaryArtist tr).name)
          (calculateSimilarity (jsTrim text)
            (tr.name ++ " " ++ (primaryArtist tr).name)))
        streak := if classifySimilarity
            (calculateSimilarity (jsTrim text) tr.name)
            (calculateSimilarity (jsTrim text) (primaryArtist tr).name)
            (calculateSimilarity (jsTrim text)
              (tr.name ++ " " ++ (primaryArtist tr).name)) = GuessResult.wrong
          then 0 else s.streak + 1 } := by
  unfold handleGuess
  rw [htr]
  dsimp only
  rw [if_neg hne]

/-- Modelled from the claim's wording of the score rule: per-outcome base
delta, plus the speed bonus for a `correct` or `partial` outcome when the
remaining time strictly exceeds 70% of the turn limit. -/
def claimedScoreDelta (result : GuessResult) (streak : ℕ) (multiplier : ℚ)
    (timeLeft turnTimeLimit : ℕ) : ℤ :=
  (match result with
   | .correct => jsRound (10 * multiplier * (1 + (streak : ℚ) * (1/10)))
   | .partialMatch => jsRound (5 * multiplier)
   | .wrong => -2) +
  (if (result = .correct ∨ result = .partialMatch)
      ∧ (turnTimeLimit : ℚ) * (7/10) < (timeLeft : ℚ)
   then jsRound (3 * multiplier) else 0)

theorem guessScoreDelta_eq_claimed (result : GuessResult) (streak : ℕ)
    (multiplier : ℚ) (timeLeft turnTimeLimit : ℕ) :
    guessScoreDelta result streak multiplier timeLeft turnTimeLimit =
      claimedScoreDelta result streak multiplier timeLeft turnTimeLimit := by
  unfold guessScoreDelta claimedScoreDelta
  cases result <;> simp

/-- Modelled from the claim's wording of the similarity metric. -/
def claimedSimilarity (guess target : String) : ℚ :=
  let g := normalizeString guess
  let t := normalizeString target
  if g = t then 1
  else if strIncludes g t = true ∨ strIncludes t g = true then 4/5
  else
    let guessTokens := jsSplitSpace g
    let targetTokens := jsSplitSpace t
    let matchingCount := guessTokens.countP
      (fun w => decide (∃ v ∈ targetTokens,
        strIncludes v w = true ∨ strIncludes w v = true))
    if 0 < matchingCount then
      (matchingCount : ℚ) / (max guessTokens.length targetTokens.length : ℚ)
    else 0

theorem calculateSimilarity_eq_claimed (s1 s2 : String) :
    calculateSimilarity s1 s2 = claimedSimilarity s1 s2 := by
  unfold calculateSimilarity claimedSimilarity
  have hpred : ∀ (tw : List String) (w : String),
      (tw.any (fun v => strIncludes v w || strIncludes w v))
        = decide (∃ v ∈ tw, strIncludes v w = true ∨ strIncludes w v = true) := by
    intro tw w
    rw [Bool.eq_iff_iff]
    simp [List.any_eq_true]
  simp only [hpred, List.countP_eq_length_filter, gt_iff_lt, Bool.or_eq_true]

/-! ## Concrete instances used by counterexamples and witnesses -/

/-- A small concrete track (name equal to the identifier, one artist). -/
def cexTrack (tid : String) (purl : Option String) : SpotifyTrack :=
  { id := tid, name := tid, artists := [{ id := "ar1", name := "Artist" }],
    album := { name := "Album", release_date := "2020-01-01" },
    preview_url := purl, popularity := 50 }

/-- Pool as it was when the background enhancement snapshot was taken:
track D (beyond the first 3) still lacks a preview. -/
def cexSnapshot : List SpotifyTrack :=
  [cexTrack "A" (some "a"), cexTrack "B" (some "b"), cexTrack "C" (some "c"),
   cexTrack "D" none, cexTrack "E" (some "e")]

/-- The same pool entries, with positions 3 and 4 swapped between the
start of the lookup and the arrival of its result. -/
def cexReordered : List SpotifyTrack :=
  [cexTrack "A" (some "a"), cexTrack "B" (some "b"), cexTrack "C" (some "c"),
   cexTrack "E" (some "e"), cexTrack "D" none]

/-- Lookup outcome: a preview URL is discovered for track D only. -/
def cexOracle : String → String → Option String :=
  fun _ title => if title = "D" then some "u" else none

example : enhanceTracksWithPreviewUrls (cexSnapshot.drop 3) cexOracle =
    [cexTrack "D" (some "u"), cexTrack "E" (some "e")] := by decide

/-! ## Claim theorems -/

/-- C1 (counterexample): the pool write-back of the background enhancement
is applied by positional index, not by identifier match.  With the pool
reordered between the snapshot and the arrival of the result, the preview
discovered for track D is written over the entry that now holds track E:
the write-back differs from identifier-matched application, and the entry
at position 3, whose identifier was E, ends up holding identifier D. -/
theorem claim_C1_counterexample :
    cexReordered.Perm cexSnapshot ∧
    ¬ backgroundUpdateLandsById cexSnapshot cexReordered cexOracle ∧
    ((applyBackgroundUpdates
        (enhanceTracksWithPreviewUrls (cexSnapshot.drop 3) cexOracle)
        cexReordered).map SpotifyTrack.id = ["A", "B", "C", "D", "E"]) ∧
    (cexReordered.map SpotifyTrack.id = ["A", "B", "C", "E", "D"]) := by
  refine ⟨?_, ?_, ?_, ?_⟩
  · decide
  · unfold backgroundUpdateLandsById
    decide
  · decide
  · decide

/-- C1 (amended): the background enhancement write-back is positional,
with a fixed offset of 3; provided the pool has not been reordered between
the snapshot and the arrival of the result (and pool identifiers are
pairwise distinct), every update lands on the entry with the matching
identifier — the write-back then coincides with identifier-matched
application and preserves the identifier at every position. -/
theorem claim_C1_amended (snapshot : List SpotifyTrack)
    (oracle : String → String → Option String)
    (h : (snapshot.map SpotifyTrack.id).Nodup) :
    applyBackgroundUpdates
        (enhanceTracksWithPreviewUrls (snapshot.drop 3) oracle) snapshot
      = snapshot.take 3 ++ (snapshot.drop 3).map (enhanceTrack oracle)
    ∧ (applyBackgroundUpdates
        (enhanceTracksWithPreviewUrls (snapshot.drop 3) oracle) snapshot).map
          SpotifyTrack.id = snapshot.map SpotifyTrack.id
    ∧ backgroundUpdateLandsById snapshot snapshot oracle := by
  refine ⟨applyBackgroundUpdates_eq oracle snapshot, ?_, ?_⟩
  · rw [applyBackgroundUpdates_eq]
    have hseg := map_id_of_segment_map oracle (snapshot.take 3)
      (snapshot.drop 3) []
    simp only [List.append_nil] at hseg
    rw [hseg, List.take_append_drop]
  · unfold backgroundUpdateLandsById
    rw [applyBackgroundUpdates_eq, applyUpdatesById_eq_segments oracle snapshot h]

theorem claim_C1_amended_witness :
    backgroundUpdateLandsById cexSnapshot cexSnapshot cexOracle :=
  (claim_C1_amended cexSnapshot cexOracle (by decide)).2.2

/-- C2: in every state reachable from a freshly loaded pool whose
identifiers are pairwise distinct and whose size respects the pool
ceiling, the played tracks carry pairwise distinct identifiers — no track
identifier is ever picked twice in one session, including after the
enhancement events have replaced pool entries with updated copies. -/
theorem claim_C2_played_ids_nodup (pool : List SpotifyTrack)
    (evs : List GameEvent)
    (h1 : (pool.map SpotifyTrack.id).Nodup)
    (h2 : pool.length ≤ poolCeiling) :
    ((runGame (initialGameState pool) evs).playedTracks.map
      SpotifyTrack.id).Nodup :=
  (runGame_inv (initialGameState pool) evs
    ⟨h1, h2, fun p hp => absurd hp (List.not_mem_nil p), List.nodup_nil⟩).2.2.2

/-- Events for the C2 witness: play a track, let the background
enhancement replace pool entries, keep playing. -/
def c2Events : List GameEvent :=
  [.startGame 0, .giveUp, .enhanceRemaining cexOracle, .nextTurn 1,
   .giveUp, .nextTurn 0]

theorem claim_C2_witness :
    ((runGame (initialGameState cexSnapshot) c2Events).playedTracks.map
      SpotifyTrack.id).Nodup :=
  claim_C2_played_ids_nodup cexSnapshot c2Events (by decide) (by decide)

/-- C3: for a submitted guess with non-empty (after trimming) text and a
current track present, the turn outcome is `correct` iff the combined
similarity reaches 0.8 or both the title and primary-artist similarities
do; `partial` iff it is not `correct` and one of the three similarities
reaches 0.6; `wrong` otherwise; and a guess whose normalisation equals the
normalisation of `"{title} {artist}"` always classifies `correct`. -/
theorem claim_C3_classification (s : GameState) (tr : SpotifyTrack)
    (text : String) (htr : s.currentTrack = some tr)
    (hne : jsTrim text ≠ "") :
    (((handleGuess text s).lastGuessResult = some GuessResult.correct) ↔
      (4/5 ≤ calculateSimilarity text (tr.name ++ " " ++ (primaryArtist tr).name)
        ∨ (4/5 ≤ calculateSimilarity text tr.name
            ∧ 4/5 ≤ calculateSimilarity text (primaryArtist tr).name)))
    ∧ (((handleGuess text s).lastGuessResult = some GuessResult.partialMatch) ↔
      (¬ (4/5 ≤ calculateSimilarity text (tr.name ++ " " ++ (primaryArtist tr).name)
          ∨ (4/5 ≤ calculateSimilarity text tr.name
              ∧ 4/5 ≤ calculateSimilarity text (primaryArtist tr).name))
        ∧ (3/5 ≤ calculateSimilarity text tr.name
            ∨ 3/5 ≤ calculateSimilarity text (primaryArtist tr).name
            ∨ 3/5 ≤ calculateSimilarity text (tr.name ++ " " ++ (primaryArtist tr).name))))
    ∧ (((handleGuess text s).lastGuessResult = some GuessResult.wrong) ↔
      (¬ (4/5 ≤ calculateSimilarity text (tr.name ++ " " ++ (primaryArtist tr).name)
          ∨ (4/5 ≤ calculateSimilarity text tr.name
              ∧ 4/5 ≤ calculateSimilarity text (primaryArtist tr).name))
        ∧ ¬ (3/5 ≤ calculateSimilarity text tr.name
            ∨ 3/5 ≤ calculateSimilarity text (primaryArtist tr).name
            ∨ 3/5 ≤ calculateSimilarity text (tr.name ++ " " ++ (primaryArtist tr).name))))
    ∧ (normalizeString text
        = normalizeString (tr.name ++ " " ++ (primaryArtist tr).name) →
      (handleGuess text s).lastGuessResult = some GuessResult.correct) := by
  have hres : (handleGuess text s).lastGuessResult
      = some (classifySimilarity
        (calculateSimilarity text tr.name)
        (calculateSimilarity text (primaryArtist tr).name)
        (calculateSimilarity text (tr.name ++ " " ++ (primaryArtist tr).name))) := by
    rw [handleGuess_eq text s tr htr hne]
    simp only [calculateSimilarity_jsTrim]
  refine ⟨?_, ?_, ?_, ?_⟩
  · rw [hres]
    simp only [Option.some.injEq]
    exact classifySimilarity_correct_iff _ _ _
  · rw [hres]
    simp only [Option.some.injEq]
    exact classifySimilarity_partial_iff _ _ _
  · rw [hres]
    simp only [Option.some.injEq]
    exact classifySimilarity_wrong_iff _ _ _
  · intro hnorm
    rw [hres]
    have hcs : calculateSimilarity text (tr.name ++ " " ++ (primaryArtist tr).name) = 1 :=
      calculateSimilarity_of_norm_eq hnorm
    rw [hcs]
    congr 1
    exact (classifySimilarity_correct_iff _ _ _).mpr (Or.inl (by norm_num))

theorem claim_C3_witness :
    jsTrim "D Artist" ≠ "" ∧
    normalizeString "D Artist"
      = normalizeString ((cexTrack "D" none).name ++ " "
          ++ (primaryArtist (cexTrack "D" none)).name) ∧
    (handleGuess "D Artist"
      { initialGameState cexSnapshot with
        currentTrack := some (cexTrack "D" none) }).lastGuessResult
      = some GuessResult.correct := by
  refine ⟨by decide, by decide, ?_⟩
  exact (claim_C3_classification _ (cexTrack "D" none) "D Artist" rfl
    (by decide)).2.2.2 (by decide)

/-- C4: the similarity metric normalises both strings and returns 1 on
equality, 0.8 on containment either way, else the matching-token fraction
over the larger token count, and 0 when no token matches — stated as
equality with the metric as the claim words it. -/
theorem claim_C4_similarity_metric (s1 s2 : String) :
    calculateSimilarity s1 s2 = claimedSimilarity s1 s2 :=
  calculateSimilarity_eq_claimed s1 s2

/-- C5: for every resolved guess, the score delta and streak update follow
the claimed rule — per-outcome base delta (streak taken before its
update), speed bonus for a non-wrong outcome with more than 70% of the
turn limit remaining, streak increment on `correct`/`partial` and reset on
`wrong`. -/
theorem claim_C5_scoring (s : GameState) (tr : SpotifyTrack) (text : String)
    (htr : s.currentTrack = some tr) (hne : jsTrim text ≠ "")
    (result : GuessResult)
    (hres : (handleGuess text s).lastGuessResult = some result) :
    (handleGuess text s).score =
      max 0 (s.score + claimedScoreDelta result s.streak
        (difficultySettings s.difficulty).scoreMultiplier s.timeLeft
        s.turnTimeLimit)
    ∧ (handleGuess text s).streak
      = (if result = GuessResult.wrong then 0 else s.streak + 1) := by
  rw [handleGuess_eq text s tr htr hne] at hres ⊢
  have hresult : classifySimilarity
      (calculateSimilarity (jsTrim text) tr.name)
      (calculateSimilarity (jsTrim text) (primaryArtist tr).name)
      (calculateSimilarity (jsTrim text)
        (tr.name ++ " " ++ (primaryArtist tr).name)) = result := by
    simpa using hres
  rw [hresult, guessScoreDelta_eq_claimed]
  exact ⟨rfl, rfl⟩

theorem claim_C5_witness :
    (handleGuess "D Artist"
      { initialGameState cexSnapshot with
        currentTrack := some (cexTrack "D" none) }).score =
      max 0 (0 + claimedScoreDelta GuessResult.correct 0
        (difficultySettings .medium).scoreMultiplier 20 20) := by
  have hcs1 : calculateSimilarity (jsTrim "D Artist")
      ((cexTrack "D" none).name ++ " " ++ (primaryArtist (cexTrack "D" none)).name)
      = 1 := calculateSimilarity_of_norm_eq (by decide)
  have hclass : classifySimilarity
      (calculateSimilarity (jsTrim "D Artist") (cexTrack "D" none).name)
      (calculateSimilarity (jsTrim "D Artist")
        (primaryArtist (cexTrack "D" none)).name)
      (calculateSimilarity (jsTrim "D Artist")
        ((cexTrack "D" none).name ++ " " ++ (primaryArtist (cexTrack "D" none)).name))
      = GuessResult.correct := by
    rw [hcs1]
    exact (classifySimilarity_correct_iff _ _ _).mpr (Or.inl (by norm_num))
  have hres : (handleGuess "D Artist"
      { initialGameState cexSnapshot with
        currentTrack := some (cexTrack "D" none) }).lastGuessResult
      = some GuessResult.correct := by
    rw [handleGuess_eq "D Artist" _ (cexTrack "D" none) rfl (by decide)]
    exact congrArg some hclass
  exact (claim_C5_scoring
    { initialGameState cexSnapshot with currentTrack := some (cexTrack "D" none) }
    (cexTrack "D" none) "D Artist" rfl (by decide) GuessResult.correct hres).1

/-- Five pool tracks with previews for the give-up scenario. -/
def scenarioPool : List SpotifyTrack :=
  [cexTrack "T1" (some "u1"), cexTrack "T2" (some "u2"),
   cexTrack "T3" (some "u3"), cexTrack "T4" (some "u4"),
   cexTrack "T5" (some "u5")]

/-- Easy difficulty, five turns, each ended by give-up. -/
def scenarioEvents : List GameEvent :=
  [.setDifficulty .easy, .startGame 0,
   .giveUp, .nextTurn 0, .giveUp, .nextTurn 0, .giveUp, .nextTurn 0,
   .giveUp, .nextTurn 0, .giveUp, .nextTurn 0]

/-- C6: the score never drops below 0 in any reachable state, whatever the
sequence of guesses, hints, give-ups, timer expiries and pipeline events;
and the easy-difficulty session of exactly 5 turns each ending in give-up
finishes with score 0 in the ended state. -/
theorem claim_C6_score_floor :
    (∀ (pool : List SpotifyTrack) (evs : List GameEvent),
      0 ≤ (runGame (initialGameState pool) evs).score)
    ∧ (runGame (initialGameState scenarioPool) scenarioEvents).score = 0
    ∧ (runGame (initialGameState scenarioPool) scenarioEvents).gameOver = true
    ∧ (runGame (initialGameState scenarioPool) scenarioEvents).turn = 5 := by
  refine ⟨?_, ?_, ?_, ?_⟩
  · intro pool evs
    exact runGame_score_nonneg (initialGameState pool) evs (le_refl 0)
  · decide
  · decide
  · decide

/-- C7: `startGame` is rejected — the state is returned unchanged — when
fewer than 3 pool tracks carry a preview, and accepted at 3: it resets the
score, streak, turn and played set, marks the game started, and
immediately selects turn 1's track (a preview-carrying pool track, which
becomes both the current track and the only played entry). -/
theorem claim_C7_start_gate (s : GameState) (pick : ℕ) :
    ((s.tracks.filter (fun t => t.preview_url.isSome)).length < 3 →
      startGame pick s = s)
    ∧ (s.playedTracks = [] →
      (s.tracks.filter (fun t => t.preview_url.isSome)).length = 3 →
      ∃ c ∈ s.tracks, c.preview_url.isSome = true ∧
        startGame pick s = { s with
          gameStarted := true
          score := 0
          turn := 1
          timeLeft := s.turnTimeLimit
          playedTracks := [c]
          streak := 0
          lastGuessResult := none
          showReveal := false
          showHint := false
          currentTrack := some c }) := by
  constructor
  · intro h
    unfold startGame
    dsimp only
    rw [if_pos h]
  · intro hplayed hlen
    unfold startGame
    dsimp only
    rw [if_neg (by omega)]
    unfold generateRandomTrack
    have hbasis : s.tracks.filter
        (fun t => !(decide (t ∈ s.playedTracks)) && t.preview_url.isSome)
        = s.tracks.filter (fun t => t.preview_url.isSome) := by
      apply List.filter_congr
      intro t ht
      rw [hplayed]
      simp
    set avail := s.tracks.filter
      (fun t => !(decide (t ∈ s.playedTracks)) && t.preview_url.isSome)
      with havaildef
    have hne : ¬ avail.length = 0 := by
      rw [hbasis, hlen]
      omega
    rw [dif_neg hne]
    set c := avail.get
      ⟨pick % avail.length, Nat.mod_lt _ (Nat.pos_of_ne_zero hne)⟩ with hc
    have hcmem : c ∈ avail := List.get_mem _ _ _
    rw [havaildef] at hcmem
    rw [List.mem_filter] at hcmem
    obtain ⟨hcpool, hccond⟩ := hcmem
    have hcsome : c.preview_url.isSome = true := by
      simp only [Bool.and_eq_true] at hccond
      exact hccond.2
    exact ⟨c, hcpool, hcsome, rfl⟩

theorem claim_C7_witness :
    ((scenarioPool.take 2).filter (fun t => t.preview_url.isSome)).length < 3 ∧
    startGame 0 (initialGameState (scenarioPool.take 2))
      = initialGameState (scenarioPool.take 2) ∧
    (∃ c ∈ scenarioPool.take 3, c.preview_url.isSome = true ∧
      startGame 0 (initialGameState (scenarioPool.take 3))
        = { initialGameState (scenarioPool.take 3) with
            gameStarted := true
            score := 0
            turn := 1
            timeLeft := 20
            playedTracks := [c]
            streak := 0
            lastGuessResult := none
            showReveal := false
            showHint := false
            currentTrack := some c }) := by
  refine ⟨by decide, ?_, ?_⟩
  · exact (claim_C7_start_gate (initialGameState (scenarioPool.take 2)) 0).1
      (by decide)
  · exact (claim_C7_start_gate (initialGameState (scenarioPool.take 3)) 0).2
      rfl (by decide)

/-- C8: merging the two background batches into the pool deduplicates by
track identifier with the first occurrence winning — the deduplicated list
has pairwise distinct identifiers, every identifier present in the
combined input keeps exactly its first-seen entry, every surviving entry
is the first entry of the combined input bearing its identifier — and the
merged pool is the deduplicated list truncated to the pool-size ceiling,
which is the maximum turn count across difficulties plus 10. -/
theorem claim_C8_merge_dedup (pool shortTerm longTerm : List SpotifyTrack) :
    mergeBackgroundBatches pool shortTerm longTerm
      = (dedupeById (pool ++ shortTerm ++ longTerm)).take poolCeiling
    ∧ poolCeiling = maxTurnsNeeded + 10
    ∧ ((dedupeById (pool ++ shortTerm ++ longTerm)).map SpotifyTrack.id).Nodup
    ∧ (∀ tid, tid ∈ (pool ++ shortTerm ++ longTerm).map SpotifyTrack.id →
        ∃ x ∈ dedupeById (pool ++ shortTerm ++ longTerm), x.id = tid ∧
          (pool ++ shortTerm ++ longTerm).find? (fun u => u.id == tid) = some x)
    ∧ (∀ x ∈ mergeBackgroundBatches pool shortTerm longTerm,
        (pool ++ shortTerm ++ longTerm).find? (fun u => u.id == x.id) = some x)
    ∧ (mergeBackgroundBatches pool shortTerm longTerm).length ≤ poolCeiling
    ∧ ((mergeBackgroundBatches pool shortTerm longTerm).map SpotifyTrack.id).Nodup := by
  refine ⟨rfl, rfl, dedupeById_ids_nodup _, ?_, ?_, ?_, ?_⟩
  · intro tid htid
    obtain ⟨x, hx, hxid⟩ := dedupeById_complete htid
    refine ⟨x, hx, hxid, ?_⟩
    have := dedupeById_first_seen hx
    rw [hxid] at this
    exact this
  · intro x hx
    have hx' : x ∈ dedupeById (pool ++ shortTerm ++ longTerm) :=
      List.Sublist.mem hx (List.take_sublist _ _)
    exact dedupeById_first_seen hx'
  · exact List.length_take_le _ _
  · apply List.Nodup.sublist (List.Sublist.map _ (List.take_sublist _ _))
    exact dedupeById_ids_nodup _

theorem claim_C8_witness :
    (∃ x ∈ dedupeById (cexSnapshot ++ [cexTrack "D" (some "dd")] ++ []),
      x.id = "D" ∧
        (cexSnapshot ++ [cexTrack "D" (some "dd")] ++ []).find?
          (fun u => u.id == "D") = some x) ∧
    ((mergeBackgroundBatches cexSnapshot [cexTrack "D" (some "dd")] []).map
      SpotifyTrack.id).Nodup := by
  constructor
  · exact (claim_C8_merge_dedup cexSnapshot [cexTrack "D" (some "dd")] []).2.2.2.1
      "D" (by decide)
  · exact (claim_C8_merge_dedup cexSnapshot [cexTrack "D" (some "dd")] []).2.2.2.2.2.2

/-- Seed artist with genre data, for the C9 counterexample. -/
def c9SeedArtist : SpotifyArtist :=
  { id := "sa1", name := "Seed Artist", genres := ["pop", "rock"] }

/-- Seed track by that artist. -/
def c9Seed : SpotifyTrack :=
  { id := "s1", name := "Seed Song", artists := [{ id := "sa1", name := "Seed Artist" }],
    album := { name := "Seed Album", release_date := "2020-01-01" },
    preview_url := some "p", popularity := 90 }

/-- A candidate sharing nothing with the seed: disjoint artists, far-apart
popularity, no preview (and no descriptors are supplied). -/
def c9Stranger : SpotifyTrack :=
  { id := "r1", name := "Stranger Song", artists := [{ id := "xa9", name := "Other Artist" }],
    album := { name := "Other Album", release_date := "1999-01-01" },
    preview_url := none, popularity := 10 }

/-- C9 (counterexample): the genre reason is not gated on a shared genre
tag.  For a candidate that shares nothing with the seed — no common artist
identifier, popularity 80 apart, no descriptors, no preview, and no genre
data of its own (the source never fetches candidate genres) — the reasons
list still contains the seed artist's leading-genre reason, and the
fallback reason, which the claim mandates exactly when no other reason
applies, is absent. -/
theorem claim_C9_counterexample :
    generateMatchReasons c9Seed c9Stranger c9SeedArtist none none
      = ["Similar to pop genre"] ∧
    (c9Seed.artists.any
      (fun artist => c9Stranger.artists.any
        (fun recArtist => recArtist.id == artist.id))) = false ∧
    ¬ |c9Seed.popularity - c9Stranger.popularity| < 15 ∧
    c9Stranger.preview_url = none ∧
    "Recommended by Spotify algorithm"
      ∉ generateMatchReasons c9Seed c9Stranger c9SeedArtist none none := by
  refine ⟨?_, ?_, ?_, ?_, ?_⟩ <;> decide

/-- C9 (amended): each reason in the recommendation reasons list accrues
independently exactly under its condition — shared artist; the
leading-genre reason whenever seed-artist genre data is present (the
candidate's genres are never consulted, so there is no sharing check);
popularity difference below 15; energy, valence and danceability
differences each below 0.2 when descriptors are present for both tracks;
both previews non-null — and the fallback reason appears exactly when no
other reason applies. -/
theorem claim_C9_match_reasons (seedTrack recTrack : SpotifyTrack)
    (seedArtist : SpotifyArtist) (sf rf : Option AudioFeatures) :
    generateMatchReasons seedTrack recTrack seedArtist sf rf =
      claimedMatchReasons seedTrack recTrack seedArtist sf rf :=
  generateMatchReasons_eq_claimed seedTrack recTrack seedArtist sf rf

/-- C10: the preview enhancement returns a list of the same length, with
the identifier at every position unchanged; every track that already had a
preview is returned unchanged; a looked-up track with no discovered
preview is returned unchanged (its preview stays null); and a successful
lookup writes exactly the discovered URL into the null preview field,
leaving all other fields intact. -/
theorem claim_C10_enhance_frame (tracks : List SpotifyTrack)
    (oracle : String → String → Option String) :
    (enhanceTracksWithPreviewUrls tracks oracle).length = tracks.length
    ∧ (∀ i : ℕ, ((enhanceTracksWithPreviewUrls tracks oracle)[i]?).map
        SpotifyTrack.id = (tracks[i]?).map SpotifyTrack.id)
    ∧ (∀ i : ℕ, ∀ t : SpotifyTrack, tracks[i]? = some t →
        t.preview_url.isSome = true →
        (enhanceTracksWithPreviewUrls tracks oracle)[i]? = some t)
    ∧ (∀ i : ℕ, ∀ t : SpotifyTrack, tracks[i]? = some t →
        t.preview_url = none →
        oracle (primaryArtist t).name t.name = none →
        (enhanceTracksWithPreviewUrls tracks oracle)[i]? = some t)
    ∧ (∀ (i : ℕ) (t : SpotifyTrack) (url : String), tracks[i]? = some t →
        t.preview_url = none →
        oracle (primaryArtist t).name t.name = some url →
        (enhanceTracksWithPreviewUrls tracks oracle)[i]?
          = some { t with preview_url := some url }) := by
  refine ⟨enhance_length tracks oracle, ?_, ?_, ?_, ?_⟩
  · intro i
    unfold enhanceTracksWithPreviewUrls
    rw [List.getElem?_map]
    cases tracks[i]? with
    | none => rfl
    | some t => simp [enhanceTrack_id]
  · intro i t ht hsome
    unfold enhanceTracksWithPreviewUrls
    rw [List.getElem?_map, ht]
    simp [enhanceTrack_of_isSome oracle t hsome]
  · intro i t ht hnone horacle
    unfold enhanceTracksWithPreviewUrls
    rw [List.getElem?_map, ht]
    simp [enhanceTrack, hnone, horacle]
  · intro i t url ht hnone horacle
    unfold enhanceTracksWithPreviewUrls
    rw [List.getElem?_map, ht]
    simp [enhanceTrack, hnone, horacle]

theorem claim_C10_witness :
    (enhanceTracksWithPreviewUrls cexSnapshot cexOracle)[4]?
        = some (cexTrack "E" (some "e")) ∧
    (enhanceTracksWithPreviewUrls cexSnapshot cexOracle)[3]?
        = some { cexTrack "D" none with preview_url := some "u" } := by
  constructor
  · exact (claim_C10_enhance_frame cexSnapshot cexOracle).2.2.1 4
      (cexTrack "E" (some "e")) (by decide) (by decide)
  · exact (claim_C10_enhance_frame cexSnapshot cexOracle).2.2.2.2 3
      (cexTrack "D" none) "u" (by decide) (by decide) (by decide)
